import Mathlib

/-!
Verification development for the `configloader` Go package (src/main.go).

The shallow embedding below translates the package's data model and
operations into Lean:

* Go machine integers are modelled as `Nat`/`Int` with explicit range
  and wrap-around arithmetic where the Go runtime truncates.
* `reflect` values of leaf fields are modelled by `GoValue`; a field's
  reflect type is `GoType` (its `Name()` string plus its `Kind()`).
* `log.Fatalln` (process abort) is modelled by `Except.error`: a fatal
  call yields an error value and no further code of the load runs.
* A 64-bit platform is assumed, so Go's `int`/`uint` are 64 bits wide
  (this matches `strconv.Atoi` / `ParseUint(_, 10, 64)` in the source).
-/

namespace Configloader

/-- The `reflect.Kind` of a leaf field, restricted to the kinds that can
appear in the claims and in the source's `setField` switch.  `slice`
stands for any non-scalar kind a leaf field may have (e.g. `[]string`),
whose reflect type name is the empty string. -/
inductive GoKind where
  | string
  | int
  | int8
  | int16
  | int32
  | int64
  | uint
  | uint8
  | uint16
  | uint32
  | uint64
  | float32
  | float64
  | bool
  | slice
deriving DecidableEq, Repr

/-- A leaf field's reflect type: `name` models `Type().Name()` (the
declared type name, `""` for unnamed types such as slices) and `kind`
models `Type().Kind()` (the underlying representation checked by the
`reflect.Value.Set*` writers). -/
structure GoType where
  name : String
  kind : GoKind
deriving DecidableEq, Repr

/-- The value stored in a leaf field after a write.  Floating point
values are represented by their accepted literal text: no claim
concerns the numeric value of a float field, and binary64 rounding is
outside this embedding. -/
inductive GoValue where
  | vString (s : String)
  | vInt (i : Int)
  | vUint (n : Nat)
  | vFloat (lit : String)
  | vBool (b : Bool)
deriving DecidableEq, Repr

/-- A fatal outcome of the load.  `parse` models `log.Fatalln(err)` on a
`strconv` conversion error; `kindPanic` models the runtime panic raised
by `reflect.Value.SetString`/`SetInt`/`SetUint`/`SetFloat`/`SetBool`
when the field's kind does not match the writer; `ioError` models
`log.Fatalln` on a file open/decode failure. -/
inductive GoError where
  | parse
  | kindPanic
  | ioError
deriving DecidableEq, Repr

instance {ε α : Type} [DecidableEq ε] [DecidableEq α] : DecidableEq (Except ε α) := fun x y =>
  match x, y with
  | .ok a, .ok b =>
    if h : a = b then .isTrue (by rw [h]) else .isFalse (by intro hc; cases hc; exact h rfl)
  | .error e, .error f =>
    if h : e = f then .isTrue (by rw [h]) else .isFalse (by intro hc; cases hc; exact h rfl)
  | .ok _, .error _ => .isFalse (by intro hc; cases hc)
  | .error _, .ok _ => .isFalse (by intro hc; cases hc)

/-- Strips one optional leading sign from a character list, returning
whether the sign was `-` and the remaining characters.  Shared sign
handling of `strconv.ParseInt` (hence `Atoi`). -/
def stripSign : List Char → Bool × List Char
  | '-' :: rest => (true, rest)
  | '+' :: rest => (false, rest)
  | cs => (false, cs)

/-- Value of a non-empty decimal digit list, most significant first. -/
def natFromDigits (ds : List Char) : Nat :=
  ds.foldl (fun a c => a * 10 + (c.toNat - '0'.toNat)) 0

/-- Models `strconv.Atoi` on a 64-bit platform: an optional sign
followed by at least one decimal digit, rejected (error) when the value
lies outside the signed 64-bit range.  Base 10 is explicit in the
source, so digit-group underscores are not accepted. -/
def atoi (s : String) : Option Int :=
  let (neg, ds) := stripSign s.data
  if ds.isEmpty then none
  else if ds.all Char.isDigit then
    let v : Int := if neg then -(natFromDigits ds : Int) else (natFromDigits ds : Int)
    if -(2 ^ 63) ≤ v ∧ v ≤ 2 ^ 63 - 1 then some v else none
  else none

/-- Models `strconv.ParseUint(raw, 10, 64)`: decimal digits only (no
sign permitted), rejected when the value exceeds the unsigned 64-bit
range. -/
def parseUint64 (s : String) : Option Nat :=
  let ds := s.data
  if ds.isEmpty then none
  else if ds.all Char.isDigit then
    let n := natFromDigits ds
    if n ≤ 2 ^ 64 - 1 then some n else none
  else none

/-- Models `strconv.ParseBool`, which accepts exactly the twelve
spellings listed in its documentation and rejects everything else. -/
def parseBool (s : String) : Option Bool :=
  if s = "1" ∨ s = "t" ∨ s = "T" ∨ s = "TRUE" ∨ s = "true" ∨ s = "True" then some true
  else if s = "0" ∨ s = "f" ∨ s = "F" ∨ s = "FALSE" ∨ s = "false" ∨ s = "False" then some false
  else none

/-- A non-empty all-digit character list. -/
def isDigitList (l : List Char) : Bool :=
  !l.isEmpty && l.all Char.isDigit

/-- Mantissa of a decimal float literal: digits with an optional point,
at least one digit present. -/
def isMantissa (l : List Char) : Bool :=
  let (intPart, rest) := l.span Char.isDigit
  match rest with
  | [] => !intPart.isEmpty
  | '.' :: frac => (!intPart.isEmpty || !frac.isEmpty) && frac.all Char.isDigit
  | _ => false

/-- Exponent part of a float literal (after the `e`/`E`): an optional
sign followed by digits. -/
def isExponentPart (l : List Char) : Bool :=
  isDigitList (stripSign l).2

/-- Syntax acceptance of `strconv.ParseFloat(raw, 64)` for decimal and
scientific literals and the special spellings `inf`/`infinity`/`nan`.
Hexadecimal floats, digit-group underscores, and the out-of-range
(`ErrRange`) cases of `ParseFloat` are not modelled: no claim concerns
floating-point fields, and the float branch of `setField` is used below
only as "a branch other than the one under study". -/
def isFloatLit (s : String) : Bool :=
  let (_, body) := stripSign s.data
  if body.map Char.toLower == "inf".data || body.map Char.toLower == "infinity".data
      || body.map Char.toLower == "nan".data then
    true
  else
    let (man, rest) := body.span (fun c => !(c == 'e' || c == 'E'))
    match rest with
    | [] => isMantissa man
    | _ :: ex => isMantissa man && isExponentPart ex

/-- Bit width written by `reflect.Value.SetInt` for each signed kind
(64-bit platform), `none` for kinds on which `SetInt` panics. -/
def signedBits : GoKind → Option Nat
  | .int => some 64
  | .int8 => some 8
  | .int16 => some 16
  | .int32 => some 32
  | .int64 => some 64
  | _ => none

/-- Bit width written by `reflect.Value.SetUint` for each unsigned kind
(64-bit platform), `none` for kinds on which `SetUint` panics. -/
def unsignedBits : GoKind → Option Nat
  | .uint => some 64
  | .uint8 => some 8
  | .uint16 => some 16
  | .uint32 => some 32
  | .uint64 => some 64
  | _ => none

/-- Two's-complement truncation of an integer to `b` bits: the Go
conversion `intN(x)` performed inside `reflect.Value.SetInt`, which
wraps silently instead of checking for overflow. -/
def signedWrap (b : Nat) (i : Int) : Int :=
  let m : Int := 2 ^ b
  let r := i % m
  if r < 2 ^ (b - 1) then r else r - m

/-- The type names of the signed-integer case of `setField`'s switch.
Note that `"int8"` is absent in the source. -/
def signedNames : List String := ["int", "int16", "int32", "int64"]

/-- The type names of the float case of `setField`'s switch.  Note that
`"float"` is not the name of any Go type and `"float32"` is absent. -/
def floatNames : List String := ["float", "float64"]

/-- The type names of the unsigned-integer case of `setField`'s switch.
Note that `"uint8"` is absent in the source. -/
def unsignedNames : List String := ["uint", "uint16", "uint32", "uint64"]

/-- Every type name with a dedicated (non-default) case in `setField`'s
switch. -/
def handledNames : List String :=
  signedNames ++ floatNames ++ ["bool"] ++ unsignedNames

/-- Models `setField` (src/main.go lines 139-172): switch on the field
type's `Name()`; parse with `strconv` and write through the matching
`reflect.Value` writer; the default branch calls `SetString`.  A
`strconv` error is `log.Fatalln` (here `.error .parse`); a `reflect`
writer applied to a field of the wrong kind panics (here
`.error .kindPanic`); `SetInt`/`SetUint` silently truncate the parsed
64-bit value to the field's width. -/
def setField (ty : GoType) (raw : String) : Except GoError GoValue :=
  if ty.name ∈ signedNames then
    match atoi raw with
    | none => .error .parse
    | some i =>
      match signedBits ty.kind with
      | none => .error .kindPanic
      | some b => .ok (.vInt (signedWrap b i))
  else if ty.name ∈ floatNames then
    if isFloatLit raw then
      if ty.kind = .float32 ∨ ty.kind = .float64 then .ok (.vFloat raw)
      else .error .kindPanic
    else .error .parse
  else if ty.name = "bool" then
    match parseBool raw with
    | none => .error .parse
    | some b => if ty.kind = .bool then .ok (.vBool b) else .error .kindPanic
  else if ty.name ∈ unsignedNames then
    match parseUint64 raw with
    | none => .error .parse
    | some n =>
      match unsignedBits ty.kind with
      | none => .error .kindPanic
      | some b => .ok (.vUint (n % 2 ^ b))
  else
    if ty.kind = .string then .ok (.vString raw) else .error .kindPanic

/-- The static shape of one field of the target struct, as seen through
`reflect`.  A `StructField` whose type's kind is `reflect.Struct`
corresponds to the `group` constructor (its tags and subfields); every
other field is a `scalar` leaf.  `nameTag` models `Tag.Get("configName")`
and `prefTag` models `Tag.Get("configPrefix")`; `Tag.Get` returns `""`
for an absent tag, so `""` encodes absence.  `exported` records whether
the Go field is exported (`CanSet` is false for unexported fields). -/
inductive FieldTree where
  | scalar (name nameTag prefTag : String) (exported : Bool) (ty : GoType)
  | group (name nameTag prefTag : String) (exported : Bool) (fields : List FieldTree)

/-- The descriptor handed to a hook's callback for one settable leaf
field: its resolved external name and its reflect type.  (The source's
`currentField` also carries the `reflect.Value` binding and the index;
the binding is modelled positionally, see `applyEnv`/`applyParams`.) -/
structure FieldDesc where
  name : String
  ty : GoType
deriving DecidableEq, Repr

/-- Models `getFieldName` (src/main.go lines 210-216): the
`configName` tag when non-empty, otherwise the field's declared name. -/
def getFieldName : FieldTree → String
  | .scalar n nt _ _ _ => if 0 < nt.length then nt else n
  | .group n nt _ _ _ => if 0 < nt.length then nt else n

/-- Models `foreachFieldValue` (src/main.go lines 188-208) restricted to
the part the claims are about: the ordered sequence of leaf descriptors
produced by the walk.  For a struct-kind field the walk recurses with
prefix `Tag.Get("configPrefix")` — the tag alone, not appended to the
incoming prefix — and with the read-only flag propagated to the
subfields (reflect marks values reached through an unexported field as
unsettable).  A leaf is emitted when it is settable (`IsValid` and
`CanAddr` always hold here because the target is an addressable struct
reached from a pointer), with name `prefix + getFieldName(field)`. -/
def walkFields (pre : String) (ro : Bool) : List FieldTree → List FieldDesc
  | [] => []
  | .group _ _ pt ex fs :: rest =>
      walkFields pt (ro || !ex) fs ++ walkFields pre ro rest
  | .scalar n nt pt ex ty :: rest =>
      (if ex && !ro then [⟨pre ++ getFieldName (.scalar n nt pt ex ty), ty⟩] else [])
        ++ walkFields pre ro rest

/-- Models `foreachField` (src/main.go lines 180-186): the walk starts
from the dereferenced target pointer with the empty prefix. -/
def foreachFieldDescs (fields : List FieldTree) : List FieldDesc :=
  walkFields "" false fields

/-- Modelled from the spec: section 4.1 says the walker should "recurse
into it with an accumulated prefix formed by appending that group's own
prefix tag (empty string if absent) to the current prefix".  This is
the walk the specification describes, identical to `walkFields` except
that the group branch accumulates `pre ++ pt` instead of passing `pt`
alone; it exists only to be compared against the source's walker. -/
def specAccumWalk (pre : String) (ro : Bool) : List FieldTree → List FieldDesc
  | [] => []
  | .group _ _ pt ex fs :: rest =>
      specAccumWalk (pre ++ pt) (ro || !ex) fs ++ specAccumWalk pre ro rest
  | .scalar n nt pt ex ty :: rest =>
      (if ex && !ro then [⟨pre ++ getFieldName (.scalar n nt pt ex ty), ty⟩] else [])
        ++ specAccumWalk pre ro rest

/-- Character-wise upper-casing, modelling `strings.ToUpper` (which
agrees with per-character `Char.toUpper` on the ASCII names field names
are made of). -/
def upperString (s : String) : String :=
  String.mk (s.data.map Char.toUpper)

/-- Models `EnvHook.formatEnvVar` (src/main.go lines 134-137):
`fmt.Sprintf("CONFIG_%s", strings.ToUpper(name))`. -/
def formatEnvVar (name : String) : String :=
  "CONFIG_" ++ upperString name

/-- Models the loop body of `EnvHook.run` (src/main.go lines 125-132)
over the walked descriptors.  The target's leaf values are modelled
positionally: `vals` lists, in walk order, the current value of each
settable leaf, so descriptor `i` is bound to slot `i`.  `env` models
`os.Getenv`, which returns `""` for an absent variable.  A `setField`
failure is `log.Fatalln`: the whole run yields the error and no further
field is processed (the process would have exited, so no partially
written state is observable by the caller). -/
def applyEnv (env : String → String) : List FieldDesc → List GoValue → Except GoError (List GoValue)
  | [], vs => .ok vs
  | _ :: _, [] => .ok []
  | d :: ds, v :: vs =>
    let raw := env (formatEnvVar d.name)
    if 0 < raw.length then
      match setField d.ty raw with
      | .error e => .error e
      | .ok v' => Except.map (fun r => v' :: r) (applyEnv env ds vs)
    else Except.map (fun r => v :: r) (applyEnv env ds vs)

/-- Models `EnvHook.run` on a target with field shape `fields` and
current leaf values `vals`. -/
def envRun (env : String → String) (fields : List FieldTree) (vals : List GoValue) :
    Except GoError (List GoValue) :=
  applyEnv env (foreachFieldDescs fields) vals

/-- One registered command-line flag: its name and its default value. -/
structure FlagSpec where
  flagName : String
  flagDefault : String
deriving DecidableEq, Repr

/-- Models `ParamsHook.readFlagsFromStructMetadata` (src/main.go lines
110-114): one flag is registered per walked leaf descriptor, in walk
order, named `field.name` with default `""`. -/
def readFlags (descs : List FieldDesc) : List FlagSpec :=
  descs.map (fun d => ⟨d.name, ""⟩)

/-- The value a registered flag holds after `flag.Parse()`: the supplied
command-line value when the flag was given, otherwise its default.
`supplied` models the parsed command line (`none` = flag omitted). -/
def flagParse (supplied : String → Option String) (fs : FlagSpec) : String :=
  (supplied fs.flagName).getD fs.flagDefault

/-- Models the post-parse loop of `ParamsHook.run` (src/main.go lines
98-108): a counter `i` walks the leaf fields in step with the walk that
registered the flags, and field `i` is written from flag `i` when
`i < len(flags)` and the flag's value is non-empty. -/
def applyParams (flags : List String) : Nat → List FieldDesc → List GoValue → Except GoError (List GoValue)
  | _, [], vs => .ok vs
  | _, _ :: _, [] => .ok []
  | i, d :: ds, v :: vs =>
    if i < flags.length ∧ 0 < (flags.getD i "").length then
      match setField d.ty (flags.getD i "") with
      | .error e => .error e
      | .ok v' => Except.map (fun r => v' :: r) (applyParams flags (i + 1) ds vs)
    else Except.map (fun r => v :: r) (applyParams flags (i + 1) ds vs)

/-- Models `ParamsHook.run`: register one flag per walked descriptor,
parse the command line, then apply the flag values by index. -/
def paramsRun (supplied : String → Option String) (fields : List FieldTree)
    (vals : List GoValue) : Except GoError (List GoValue) :=
  let descs := foreachFieldDescs fields
  let flags := (readFlags descs).map (flagParse supplied)
  applyParams flags 0 descs vals

/-- Models `ConfigFileHook.run` (src/main.go lines 72-83) at the level
the claims need: opening and JSON-decoding the file are external I/O,
summarised by `result` — an error when the file cannot be opened or
decoded (both are `log.Fatalln` in the source), or the decoded
document's merge action on the target. -/
def fileRun {σ ε : Type} (result : Except ε (σ → σ)) : σ → Except ε σ :=
  fun s =>
    match result with
    | .error e => .error e
    | .ok apply => .ok (apply s)

/-- Models `ConfigLoader` (src/main.go lines 32-35): the hook queue in
front-to-back order and the target.  A hook is modelled by its effect
on the target state, `Except`-valued because a hook may abort the load.
In Go the queue and the target are shared pointers, so mutating them
through a copied loader mutates the original's queue and target too;
the pure model threads the updated loader explicitly instead. -/
structure ConfigLoader (σ ε : Type) where
  hooks : List (σ → Except ε σ)
  target : σ

/-- Models `NewConfigLoaderFor` (src/main.go lines 40-45). -/
def NewConfigLoaderFor {σ ε : Type} (target : σ) : ConfigLoader σ ε :=
  ⟨[], target⟩

/-- Models `ConfigLoader.AddHook` (src/main.go lines 48-51): enqueue at
the back, return the loader for chaining. -/
def ConfigLoader.AddHook {σ ε : Type} (l : ConfigLoader σ ε) (h : σ → Except ε σ) :
    ConfigLoader σ ε :=
  { l with hooks := l.hooks ++ [h] }

/-- The dequeue loop of `Retrieve` (src/main.go lines 54-60): run the
front hook on the current target state, stop on the first fatal error.
Returns the outcome, the hooks still enqueued when the loop stopped,
and the target state reached. -/
def retrieveLoop {σ ε : Type} : List (σ → Except ε σ) → σ → Except ε σ × List (σ → Except ε σ) × σ
  | [], s => (.ok s, [], s)
  | h :: rest, s =>
    match h s with
    | .ok s' => retrieveLoop rest s'
    | .error e => (.error e, rest, s)

/-- Models `ConfigLoader.Retrieve`.  The Go receiver is a value copy,
but `hooks` is a shared `*queue.Queue` and `target` a shared pointer,
so the returned loader reflects the state the original loader's queue
and target are left in. -/
def ConfigLoader.Retrieve {σ ε : Type} (l : ConfigLoader σ ε) :
    Except ε σ × ConfigLoader σ ε :=
  match retrieveLoop l.hooks l.target with
  | (r, rest, s) => (r, ⟨rest, s⟩)

/-- A one-field record used to state the priority-ordering claim. -/
structure PriorityRec where
  F : String
deriving DecidableEq, Repr

/-- Modelled from the spec: section 4.2 "parse as base-10 integer" — the
mathematical reading of an optional sign followed by decimal digits,
with no range restriction.  Used only to state the integer-coercion
claims, to be compared with the source-modelled `atoi`. -/
def decimalDenote (s : String) : Option Int :=
  let (neg, ds) := stripSign s.data
  if ds.isEmpty ∨ ¬ ds.all Char.isDigit then none
  else some ((if neg then -1 else 1) * (natFromDigits ds : Int))

/-- Modelled from the spec: section 4.2 "parse as base-10 unsigned
integer" — decimal digits with no sign and no range restriction. -/
def decimalDenoteNat (s : String) : Option Nat :=
  if s.data.isEmpty ∨ ¬ s.data.all Char.isDigit then none
  else some (natFromDigits s.data)

/-- Coercion behaviour of one signed-integer type name: success exactly
on base-10 input within the signed 64-bit range, the written value
being the parsed integer truncated to `b` bits. -/
def SignedOk (nm : String) (k : GoKind) (b : Nat) : Prop :=
  ∀ raw v, setField ⟨nm, k⟩ raw = .ok v ↔
    ∃ i, decimalDenote raw = some i ∧ -(2 ^ 63) ≤ i ∧ i ≤ 2 ^ 63 - 1 ∧
      v = GoValue.vInt (signedWrap b i)

/-- Coercion behaviour of one unsigned-integer type name: success
exactly on unsigned base-10 input within the 64-bit range, the written
value being the parsed integer reduced modulo `2 ^ b`. -/
def UnsignedOk (nm : String) (k : GoKind) (b : Nat) : Prop :=
  ∀ raw v, setField ⟨nm, k⟩ raw = .ok v ↔
    ∃ n, decimalDenoteNat raw = some n ∧ n ≤ 2 ^ 64 - 1 ∧
      v = GoValue.vUint (n % 2 ^ b)

/-- Proof-side restatement of the per-field loops: process descriptors
head to head with their value slots, the raw string for a descriptor
being `f d`.  `applyEnv` and the index-based `applyParams` both reduce
to this form (see `applyEnv_eq_applyHead` and `paramsRun_eq`). -/
def applyHead (f : FieldDesc → String) : List FieldDesc → List GoValue → Except GoError (List GoValue)
  | [], vs => .ok vs
  | _ :: _, [] => .ok []
  | d :: ds, v :: vs =>
    if 0 < (f d).length then
      match setField d.ty (f d) with
      | .error e => .error e
      | .ok v' => Except.map (fun r => v' :: r) (applyHead f ds vs)
    else Except.map (fun r => v :: r) (applyHead f ds vs)

theorem except_map_ok {ε α β : Type} (g : α → β) (x : Except ε α) (b : β)
    (h : Except.map g x = .ok b) : ∃ a, x = .ok a ∧ b = g a := by
  cases x with
  | ok a => exact ⟨a, rfl, by simpa [Except.map] using h.symm⟩
  | error e => simp [Except.map] at h

theorem applyEnv_eq_applyHead (env : String → String) :
    ∀ (ds : List FieldDesc) (vs : List GoValue),
      applyEnv env ds vs = applyHead (fun d => env (formatEnvVar d.name)) ds vs := by
  intro ds
  induction ds with
  | nil => intro vs; simp [applyEnv, applyHead]
  | cons d ds ih =>
    intro vs
    cases vs with
    | nil => simp [applyEnv, applyHead]
    | cons v vs => simp only [applyEnv, applyHead, ih]

theorem applyParams_shift (f : FieldDesc → String) :
    ∀ (ds : List FieldDesc) (pre : List String) (vs : List GoValue),
      applyParams (pre ++ ds.map f) pre.length ds vs = applyHead f ds vs := by
  intro ds
  induction ds with
  | nil => intro pre vs; simp [applyParams, applyHead]
  | cons d ds ih =>
    intro pre vs
    cases vs with
    | nil => simp [applyParams, applyHead]
    | cons v vs =>
      have hget : (pre ++ (d :: ds).map f).getD pre.length "" = f d := by
        simp [List.getD_eq_getElem?_getD, List.getElem?_append_right (Nat.le_refl pre.length)]
      have hlt : pre.length < (pre ++ (d :: ds).map f).length := by
        simp
      have hstep : pre ++ (d :: ds).map f = (pre ++ [f d]) ++ ds.map f := by
        simp
      have hlen : pre.length + 1 = (pre ++ [f d]).length := by
        simp
      simp only [applyParams, applyHead, hget]
      by_cases hc : 0 < (f d).length
      · simp only [hlt, hc, and_true, if_pos, if_pos trivial]
        cases hs : setField d.ty (f d) with
        | error e => simp
        | ok v' =>
          have := ih (pre ++ [f d]) vs
          rw [hstep, hlen, this]
      · have : ¬ (pre.length < (pre ++ (d :: ds).map f).length ∧ 0 < (f d).length) := by
          intro hx; exact hc hx.2
        simp only [if_neg this, if_neg hc]
        have := ih (pre ++ [f d]) vs
        rw [hstep, hlen, this]

theorem paramsRun_eq (supplied : String → Option String) (fields : List FieldTree)
    (vals : List GoValue) :
    paramsRun supplied fields vals =
      applyHead (fun d => (supplied d.name).getD "") (foreachFieldDescs fields) vals := by
  have h := applyParams_shift (fun d => (supplied d.name).getD "") (foreachFieldDescs fields) [] vals
  simp only [List.nil_append, List.length_nil] at h
  simp only [paramsRun, readFlags, flagParse, List.map_map, Function.comp]
  exact h

theorem applyHead_get (f : FieldDesc → String) :
    ∀ (ds : List FieldDesc) (vs r : List GoValue) (j : Nat) (d : FieldDesc) (v : GoValue),
      applyHead f ds vs = .ok r → ds.get? j = some d → vs.get? j = some v →
      ((f d).length = 0 → r.get? j = some v) ∧
      (0 < (f d).length →
        ∃ v', setField d.ty (f d) = .ok v' ∧ r.get? j = some v') := by
  intro ds
  induction ds with
  | nil => intro vs r j d v h hd hv; simp at hd
  | cons d0 ds ih =>
    intro vs r j d v h hd hv
    cases vs with
    | nil => simp at hv
    | cons v0 vs =>
      by_cases hc : 0 < (f d0).length
      · simp only [applyHead, if_pos hc] at h
        cases hs : setField d0.ty (f d0) with
        | error e => rw [hs] at h; simp at h
        | ok v' =>
          rw [hs] at h
          obtain ⟨r', hr', hrr⟩ := except_map_ok _ _ _ h
          subst hrr
          cases j with
          | zero =>
            simp only [List.get?] at hd hv
            cases hd; cases hv
            refine ⟨fun hz => absurd hc (by rw [hz]; simp), fun _ => ⟨v', hs, rfl⟩⟩
          | succ j =>
            simp only [List.get?] at hd hv ⊢
            exact ih vs r' j d v hr' hd hv
      · simp only [applyHead, if_neg hc] at h
        obtain ⟨r', hr', hrr⟩ := except_map_ok _ _ _ h
        subst hrr
        cases j with
        | zero =>
          simp only [List.get?] at hd hv
          cases hd; cases hv
          refine ⟨fun _ => rfl, fun hp => absurd hp hc⟩
        | succ j =>
          simp only [List.get?] at hd hv ⊢
          exact ih vs r' j d v hr' hd hv

theorem retrieveLoop_append {σ ε : Type} :
    ∀ (hs1 hs2 : List (σ → Except ε σ)) (s : σ),
      retrieveLoop (hs1 ++ hs2) s =
        match retrieveLoop hs1 s with
        | (.ok s', _, _) => retrieveLoop hs2 s'
        | (.error e, rest, fin) => (.error e, rest ++ hs2, fin) := by
  intro hs1
  induction hs1 with
  | nil => intro hs2 s; simp [retrieveLoop]
  | cons h hs1 ih =>
    intro hs2 s
    simp only [List.cons_append, retrieveLoop]
    cases h s with
    | ok s' => exact ih hs2 s'
    | error e => rfl

theorem retrieveLoop_ok {σ ε : Type} :
    ∀ (hs : List (σ → Except ε σ)) (s t : σ) (rest : List (σ → Except ε σ)) (fin : σ),
      retrieveLoop hs s = (.ok t, rest, fin) → rest = [] ∧ fin = t := by
  intro hs
  induction hs with
  | nil =>
    intro s t rest fin h
    simp only [retrieveLoop] at h
    obtain ⟨h1, h2, h3⟩ := Prod.mk.injEq .. ▸ h
    cases h
    exact ⟨rfl, rfl⟩
  | cons hk hs ih =>
    intro s t rest fin h
    simp only [retrieveLoop] at h
    cases hks : hk s with
    | ok s' => rw [hks] at h; exact ih s' t rest fin h
    | error e => rw [hks] at h; cases h

theorem atoi_eq_denote (s : String) :
    atoi s =
      match decimalDenote s with
      | none => none
      | some i => if -(2 ^ 63) ≤ i ∧ i ≤ 2 ^ 63 - 1 then some i else none := by
  unfold atoi decimalDenote
  cases hsp : stripSign s.data with
  | mk neg ds =>
    by_cases he : ds.isEmpty
    · simp [he]
    · by_cases ha : ds.all Char.isDigit
      · simp only [he, ha, if_neg, if_pos, ite_false, ite_true, not_true, or_false,
          if_false]
        cases neg <;> simp [he, ha]
      · simp [he, ha]

theorem setField_signedName (nm : String) (k : GoKind) (h1 : nm ∈ signedNames) (raw : String) :
    setField ⟨nm, k⟩ raw =
      match atoi raw with
      | none => .error .parse
      | some i =>
        match signedBits k with
        | none => .error .kindPanic
        | some b => .ok (.vInt (signedWrap b i)) := by
  unfold setField
  rw [if_pos h1]

theorem setField_unsignedName (nm : String) (k : GoKind) (h1 : nm ∉ signedNames)
    (h2 : nm ∉ floatNames) (h3 : nm ≠ "bool") (h4 : nm ∈ unsignedNames) (raw : String) :
    setField ⟨nm, k⟩ raw =
      match parseUint64 raw with
      | none => .error .parse
      | some n =>
        match unsignedBits k with
        | none => .error .kindPanic
        | some b => .ok (.vUint (n % 2 ^ b)) := by
  unfold setField
  rw [if_neg h1, if_neg h2, if_neg h3, if_pos h4]

theorem parseUint64_eq_denote (s : String) :
    parseUint64 s =
      match decimalDenoteNat s with
      | none => none
      | some n => if n ≤ 2 ^ 64 - 1 then some n else none := by
  unfold parseUint64 decimalDenoteNat
  by_cases he : s.data.isEmpty
  · simp [he]
  · by_cases ha : s.data.all Char.isDigit
    · simp [he, ha]
    · simp [he, ha]

theorem signedOk_of (nm : String) (k : GoKind) (b : Nat) (h1 : nm ∈ signedNames)
    (h2 : signedBits k = some b) : SignedOk nm k b := by
  intro raw v
  rw [setField_signedName nm k h1 raw, atoi_eq_denote raw]
  cases hd : decimalDenote raw with
  | none => simp
  | some i =>
    dsimp only
    by_cases hr : -(2 ^ 63) ≤ i ∧ i ≤ 2 ^ 63 - 1
    · rw [if_pos hr]
      simp only [h2]
      constructor
      · intro h
        cases h
        exact ⟨i, rfl, hr.1, hr.2, rfl⟩
      · rintro ⟨i', hi', _, _, hv⟩
        cases hi'
        rw [hv]
    · rw [if_neg hr]
      constructor
      · intro h; simp at h
      · rintro ⟨i', hi', hlo, hhi, _⟩
        cases hi'
        exact absurd ⟨hlo, hhi⟩ hr

theorem unsignedOk_of (nm : String) (k : GoKind) (b : Nat) (h1 : nm ∉ signedNames)
    (h2 : nm ∉ floatNames) (h3 : nm ≠ "bool") (h4 : nm ∈ unsignedNames)
    (h5 : unsignedBits k = some b) : UnsignedOk nm k b := by
  intro raw v
  rw [setField_unsignedName nm k h1 h2 h3 h4 raw, parseUint64_eq_denote raw]
  cases hd : decimalDenoteNat raw with
  | none => simp
  | some n =>
    dsimp only
    by_cases hr : n ≤ 2 ^ 64 - 1
    · rw [if_pos hr]
      simp only [h5]
      constructor
      · intro h
        cases h
        exact ⟨n, rfl, hr, rfl⟩
      · rintro ⟨n', hn', _, hv⟩
        cases hn'
        rw [hv]
    · rw [if_neg hr]
      constructor
      · intro h; simp at h
      · rintro ⟨n', hn', hle, _⟩
        cases hn'
        exact absurd hle hr

/-- C7: the claim speaks of "every signed-integer field of any width"
and of failure "exactly on non-numeric or out-of-range input", but the
source's switch has no case for the type names `int8` and `uint8` (such
fields fall to the default `SetString` branch and panic even on valid
numeric input), and for the handled widths a value that fits 64 bits
but not the field's width is silently truncated by `reflect
SetInt`/`SetUint` instead of failing: `setField` on an `int8` field
rejects `"5"`, and on an `int16` field maps `"100000"` to `-31072`. -/
theorem setField_int_width_cex :
    setField ⟨"int8", GoKind.int8⟩ "5" = .error .kindPanic ∧
    setField ⟨"int16", GoKind.int16⟩ "100000" = .ok (.vInt (-31072)) ∧
    setField ⟨"uint8", GoKind.uint8⟩ "5" = .error .kindPanic := by
  refine ⟨by decide, by decide, by decide⟩

/-- C7 (amended): for the integer type names the switch does handle —
`int`, `int16`, `int32`, `int64`, `uint`, `uint16`, `uint32`, `uint64`
— coercion parses the raw string as a base-10 integer (unsigned, sign
rejected, for the unsigned kinds), fails exactly on non-numeric input
or input outside the 64-bit range of `strconv.Atoi` /
`ParseUint(_, 10, 64)`, and writes the parsed value truncated to the
field's width. -/
theorem setField_integer_widths :
    SignedOk "int" GoKind.int 64 ∧ SignedOk "int16" GoKind.int16 16 ∧
    SignedOk "int32" GoKind.int32 32 ∧ SignedOk "int64" GoKind.int64 64 ∧
    UnsignedOk "uint" GoKind.uint 64 ∧ UnsignedOk "uint16" GoKind.uint16 16 ∧
    UnsignedOk "uint32" GoKind.uint32 32 ∧ UnsignedOk "uint64" GoKind.uint64 64 := by
  refine ⟨signedOk_of _ _ _ (by decide) rfl, signedOk_of _ _ _ (by decide) rfl,
    signedOk_of _ _ _ (by decide) rfl, signedOk_of _ _ _ (by decide) rfl,
    unsignedOk_of _ _ _ (by decide) (by decide) (by decide) (by decide) rfl,
    unsignedOk_of _ _ _ (by decide) (by decide) (by decide) (by decide) rfl,
    unsignedOk_of _ _ _ (by decide) (by decide) (by decide) (by decide) rfl,
    unsignedOk_of _ _ _ (by decide) (by decide) (by decide) (by decide) rfl⟩

/-- C8: the claim says fields of unhandled kinds receive the raw string
verbatim "rather than failing the load", but the default branch calls
`reflect.Value.SetString`, which panics on any field whose kind is not
string: a slice-typed leaf (unnamed type, so its type name `""` has no
dedicated case) makes the load fail. -/
theorem setField_fallback_cex :
    setField ⟨"", GoKind.slice⟩ "x" = .error .kindPanic ∧
    ("" : String) ∉ handledNames := by
  refine ⟨by decide, by decide⟩

/-- C8 (amended): a field whose type name has no dedicated case in the
switch falls to the default `SetString` branch, which assigns the raw
string verbatim when the field's underlying kind is string (e.g. a
defined string type) and panics — failing the load — for every other
kind. -/
theorem setField_default_branch :
    ∀ (ty : GoType) (raw : String), ty.name ∉ handledNames →
      setField ty raw =
        if ty.kind = GoKind.string then .ok (.vString raw) else .error .kindPanic := by
  intro ty raw hmem
  simp only [handledNames, List.append_assoc, List.mem_append, List.mem_singleton,
    not_or] at hmem
  obtain ⟨hs, hf, hb, hu⟩ := hmem
  unfold setField
  rw [if_neg hs, if_neg hf, if_neg hb, if_neg hu]

theorem setField_default_branch_witness :
    setField ⟨"URL", GoKind.string⟩ "x" =
      (if (GoType.mk "URL" GoKind.string).kind = GoKind.string
       then .ok (.vString "x") else .error .kindPanic) :=
  setField_default_branch ⟨"URL", GoKind.string⟩ "x" (by decide)

/-- C9: the claim says the canonical spellings are accepted
case-insensitively, but `strconv.ParseBool` accepts only the twelve
exact spellings: `"TRue"` is a case variant of `"true"` (same letters
up to case) yet coercion rejects it. -/
theorem setField_bool_case_cex :
    "TRue".data.map Char.toLower = "true".data ∧
    setField ⟨"bool", GoKind.bool⟩ "TRue" = .error .parse := by
  refine ⟨by decide, by decide⟩

/-- C9 (amended): boolean coercion accepts exactly the spellings `1`,
`t`, `T`, `TRUE`, `true`, `True` (writing true) and `0`, `f`, `F`,
`FALSE`, `false`, `False` (writing false), and fails on every other
string. -/
theorem setField_bool_exact :
    ∀ s : String,
      setField ⟨"bool", GoKind.bool⟩ s =
        (if s ∈ ["1", "t", "T", "TRUE", "true", "True"] then .ok (.vBool true)
         else if s ∈ ["0", "f", "F", "FALSE", "false", "False"] then .ok (.vBool false)
         else .error .parse) := by
  intro s
  unfold setField
  rw [if_neg (by decide : ¬ ("bool" ∈ signedNames)),
    if_neg (by decide : ¬ ("bool" ∈ floatNames)), if_pos rfl]
  unfold parseBool
  simp only [List.mem_cons, List.not_mem_nil, or_false]
  split_ifs with h1 h2 <;> simp

theorem string_length_zero_iff (s : String) : s.length = 0 ↔ s = "" := by
  constructor
  · intro h
    cases s with
    | mk l =>
      cases l with
      | nil => rfl
      | cons c cs => simp [String.length] at h
  · intro h
    subst h
    rfl

/-- C1: `Retrieve()` runs the registered hooks front to back — the
first conjunct shows the queue is processed sequentially in
registration order and the outcome of a composite queue is the earlier
hooks' effect continued by the later hooks' — so with two hooks setting
the same field `F`, the later-registered hook's value survives, and
reversing the registration order reverses the outcome. -/
theorem retrieve_priority_order :
    (∀ (σ ε : Type) (hs1 hs2 : List (σ → Except ε σ)) (s : σ),
      (retrieveLoop (hs1 ++ hs2) s).1 =
        match (retrieveLoop hs1 s).1 with
        | .ok t => (retrieveLoop hs2 t).1
        | .error e => .error e) ∧
    (∀ t : PriorityRec,
      ((((NewConfigLoaderFor t) : ConfigLoader PriorityRec GoError).AddHook
          (fun r => .ok { r with F := "a" })).AddHook
          (fun r => .ok { r with F := "b" })).Retrieve.1 = .ok ⟨"b"⟩) ∧
    (∀ t : PriorityRec,
      ((((NewConfigLoaderFor t) : ConfigLoader PriorityRec GoError).AddHook
          (fun r => .ok { r with F := "b" })).AddHook
          (fun r => .ok { r with F := "a" })).Retrieve.1 = .ok ⟨"a"⟩) := by
  refine ⟨?_, fun t => rfl, fun t => rfl⟩
  intro σ ε hs1 hs2 s
  rw [retrieveLoop_append]
  rcases retrieveLoop hs1 s with ⟨r, rest, fin⟩
  cases r <;> rfl

/-- C2: against the claim that the walker accumulates prefixes across
nesting levels, the source passes each group's own `configPrefix` tag
alone to the recursive call: on a doubly nested group (outer prefix
`out`, inner prefix `in`) the leaf resolves to `inF`, whereas the
spec-modelled accumulating walker (`specAccumWalk`) resolves it to
`outinF`. -/
theorem walker_prefix_cex :
    foreachFieldDescs [FieldTree.group "Outer" "" "out" true
      [FieldTree.group "Inner" "" "in" true
        [FieldTree.scalar "F" "" "" true ⟨"string", GoKind.string⟩]]] =
      [⟨"inF", ⟨"string", GoKind.string⟩⟩] ∧
    specAccumWalk "" false [FieldTree.group "Outer" "" "out" true
      [FieldTree.group "Inner" "" "in" true
        [FieldTree.scalar "F" "" "" true ⟨"string", GoKind.string⟩]]] =
      [⟨"outinF", ⟨"string", GoKind.string⟩⟩] ∧
    ("inF" : String) ≠ "outinF" := by
  refine ⟨by simp [foreachFieldDescs, walkFields, getFieldName],
    by simp [specAccumWalk, getFieldName], by decide⟩

/-- C2 (amended): the walker recurses into a group with that group's
own prefix tag alone — the prefix accumulated so far is discarded, so
the walk of a group field is independent of the surrounding prefix, and
a leaf under two nested groups carries exactly the innermost group's
prefix in front of its resolved name. -/
theorem walker_innermost_prefix :
    (∀ (pre1 pre2 : String) (ro : Bool) (n nt pt : String) (ex : Bool)
        (fs : List FieldTree),
      walkFields pre1 ro [FieldTree.group n nt pt ex fs] =
        walkFields pre2 ro [FieldTree.group n nt pt ex fs]) ∧
    (∀ (pre t1 t2 nm : String) (ty : GoType),
      walkFields pre false
        [FieldTree.group "G1" "" t1 true [FieldTree.group "G2" "" t2 true
          [FieldTree.scalar nm "" "" true ty]]] = [⟨t2 ++ nm, ty⟩]) := by
  constructor
  · intro pre1 pre2 ro n nt pt ex fs
    simp [walkFields]
  · intro pre t1 t2 nm ty
    simp [walkFields, getFieldName]

/-- C3: a settable leaf's resolved external name is the `configName`
tag when non-empty, else the declared field name, with the current
prefix string-prepended (no separator); concretely a group with prefix
tag `db` containing field `Name` resolves to `dbName`, environment
variable `CONFIG_DBNAME`, and a registered flag named `dbName`. -/
theorem field_name_resolution :
    (∀ (pre n nt pt : String) (ty : GoType) (rest : List FieldTree),
      walkFields pre false (FieldTree.scalar n nt pt true ty :: rest) =
        ⟨pre ++ (if 0 < nt.length then nt else n), ty⟩ :: walkFields pre false rest) ∧
    foreachFieldDescs [FieldTree.group "Database" "" "db" true
      [FieldTree.scalar "Name" "" "" true ⟨"string", GoKind.string⟩]] =
      [⟨"dbName", ⟨"string", GoKind.string⟩⟩] ∧
    formatEnvVar "dbName" = "CONFIG_DBNAME" ∧
    readFlags [⟨"dbName", ⟨"string", GoKind.string⟩⟩] = [⟨"dbName", ""⟩] := by
  refine ⟨?_, by simp [foreachFieldDescs, walkFields, getFieldName], by decide, by decide⟩
  intro pre n nt pt ty rest
  simp [walkFields, getFieldName]

/-- C10: `Retrieve` dequeues every hook from the (pointer-shared)
queue: after a successful call the loader's queue is empty and its
target holds the final state, so a second `Retrieve` on that loader
applies no hook and returns the target exactly as the first call left
it. -/
theorem retrieve_consumes_queue :
    ∀ (σ ε : Type) (l : ConfigLoader σ ε) (s : σ),
      l.Retrieve.1 = .ok s →
      (l.Retrieve.2.hooks = [] ∧ l.Retrieve.2.target = s ∧
        l.Retrieve.2.Retrieve = (.ok s, l.Retrieve.2)) := by
  intro σ ε l s h
  unfold ConfigLoader.Retrieve at *
  rcases hr : retrieveLoop l.hooks l.target with ⟨r, rest, fin⟩
  rw [hr] at h
  dsimp only at h
  subst h
  obtain ⟨h1, h2⟩ := retrieveLoop_ok l.hooks l.target s rest fin hr
  subst h1
  subst h2
  exact ⟨rfl, rfl, rfl⟩

theorem retrieve_consumes_queue_witness :
    ((⟨[fun s => Except.ok (s ++ "!")], "x"⟩ : ConfigLoader String GoError).Retrieve.2.hooks = [] ∧
     (⟨[fun s => Except.ok (s ++ "!")], "x"⟩ : ConfigLoader String GoError).Retrieve.2.target = "x!" ∧
     (⟨[fun s => Except.ok (s ++ "!")], "x"⟩ : ConfigLoader String GoError).Retrieve.2.Retrieve =
       (.ok "x!", (⟨[fun s => Except.ok (s ++ "!")], "x"⟩ : ConfigLoader String GoError).Retrieve.2)) :=
  retrieve_consumes_queue String GoError ⟨[fun s => Except.ok (s ++ "!")], "x"⟩ "x!" rfl

/-- C4: for each walked leaf descriptor the Environment Source looks up
the variable `CONFIG_` + upper-cased resolved name (first conjunct:
that is exactly the name `formatEnvVar` builds); when the lookup is
empty — `os.Getenv` returns `""` both for an absent and for an empty
variable — the field's slot is left untouched in the result, and when
it is non-empty the slot receives the coerced value. -/
theorem env_source_field_behavior :
    (∀ nm : String, formatEnvVar nm = "CONFIG_" ++ upperString nm) ∧
    ∀ (env : String → String) (fields : List FieldTree) (vals r : List GoValue)
      (j : Nat) (d : FieldDesc) (v : GoValue),
      envRun env fields vals = .ok r →
      (foreachFieldDescs fields).get? j = some d →
      vals.get? j = some v →
      (env (formatEnvVar d.name) = "" → r.get? j = some v) ∧
      (env (formatEnvVar d.name) ≠ "" →
        ∃ v', setField d.ty (env (formatEnvVar d.name)) = .ok v' ∧
          r.get? j = some v') := by
  refine ⟨fun nm => rfl, ?_⟩
  intro env fields vals r j d v h hd hv
  have h' : applyHead (fun d0 => env (formatEnvVar d0.name)) (foreachFieldDescs fields) vals
      = .ok r := by
    rw [← applyEnv_eq_applyHead]
    exact h
  have hg := applyHead_get (fun d0 => env (formatEnvVar d0.name)) (foreachFieldDescs fields)
    vals r j d v h' hd hv
  constructor
  · intro he
    exact hg.1 ((string_length_zero_iff _).2 he)
  · intro hne
    exact hg.2 (Nat.pos_of_ne_zero (fun h0 => hne ((string_length_zero_iff _).1 h0)))

theorem env_source_field_behavior_witness :
    (((fun _ => "") : String → String) (formatEnvVar "Host") = "" →
      [GoValue.vString "d"].get? 0 = some (GoValue.vString "d")) ∧
    (((fun _ => "") : String → String) (formatEnvVar "Host") ≠ "" →
      ∃ v', setField ⟨"string", GoKind.string⟩
          (((fun _ => "") : String → String) (formatEnvVar "Host")) = .ok v' ∧
        [GoValue.vString "d"].get? 0 = some v') :=
  env_source_field_behavior.2 (fun _ => "")
    [FieldTree.scalar "Host" "" "" true ⟨"string", GoKind.string⟩]
    [GoValue.vString "d"] [GoValue.vString "d"] 0 ⟨"Host", ⟨"string", GoKind.string⟩⟩
    (GoValue.vString "d")
    (by simp [envRun, foreachFieldDescs, walkFields, getFieldName, applyEnv, Except.map])
    (by simp [foreachFieldDescs, walkFields, getFieldName])
    rfl

/-- C5: the Parameters Source registers one flag per walked leaf
descriptor, named exactly the descriptor's resolved external name with
default `""` (first conjunct), and after parsing, the field of every
descriptor whose flag value is non-empty receives the coerced value
while a field whose flag was omitted (so the flag kept its empty
default) keeps its previous value.  The no-duplicates hypothesis
records that `flag.String` panics on a duplicate flag name, so only
walks with distinct resolved names reach the apply loop. -/
theorem params_source_field_behavior :
    (∀ descs : List FieldDesc, readFlags descs = descs.map (fun d => ⟨d.name, ""⟩)) ∧
    ∀ (supplied : String → Option String) (fields : List FieldTree)
      (vals r : List GoValue) (j : Nat) (d : FieldDesc) (v : GoValue),
      ((foreachFieldDescs fields).map FieldDesc.name).Nodup →
      paramsRun supplied fields vals = .ok r →
      (foreachFieldDescs fields).get? j = some d →
      vals.get? j = some v →
      ((supplied d.name).getD "" = "" → r.get? j = some v) ∧
      ((supplied d.name).getD "" ≠ "" →
        ∃ v', setField d.ty ((supplied d.name).getD "") = .ok v' ∧
          r.get? j = some v') := by
  refine ⟨fun descs => rfl, ?_⟩
  intro supplied fields vals r j d v hnd h hd hv
  have h' : applyHead (fun d0 => (supplied d0.name).getD "") (foreachFieldDescs fields) vals
      = .ok r := by
    rw [← paramsRun_eq]
    exact h
  have hg := applyHead_get (fun d0 => (supplied d0.name).getD "") (foreachFieldDescs fields)
    vals r j d v h' hd hv
  constructor
  · intro he
    exact hg.1 ((string_length_zero_iff _).2 he)
  · intro hne
    exact hg.2 (Nat.pos_of_ne_zero (fun h0 => hne ((string_length_zero_iff _).1 h0)))

theorem params_source_field_behavior_witness :
    ((((fun n => if n = "Port" then some "8080" else none) : String → Option String) "Port").getD "" = "" →
      [GoValue.vInt 8080].get? 0 = some (GoValue.vInt 0)) ∧
    ((((fun n => if n = "Port" then some "8080" else none) : String → Option String) "Port").getD "" ≠ "" →
      ∃ v', setField ⟨"int", GoKind.int⟩
          ((((fun n => if n = "Port" then some "8080" else none) : String → Option String) "Port").getD "") = .ok v' ∧
        [GoValue.vInt 8080].get? 0 = some v') :=
  params_source_field_behavior.2 (fun n => if n = "Port" then some "8080" else none)
    [FieldTree.scalar "Port" "" "" true ⟨"int", GoKind.int⟩]
    [GoValue.vInt 0] [GoValue.vInt 8080] 0 ⟨"Port", ⟨"int", GoKind.int⟩⟩ (GoValue.vInt 0)
    (by simp [foreachFieldDescs, walkFields, getFieldName])
    (by
      rw [paramsRun_eq]
      simp only [foreachFieldDescs]
      rw [show walkFields "" false [FieldTree.scalar "Port" "" "" true ⟨"int", GoKind.int⟩]
            = [⟨"Port", ⟨"int", GoKind.int⟩⟩] from by simp [walkFields, getFieldName]]
      decide)
    (by simp [foreachFieldDescs, walkFields, getFieldName])
    rfl

/-- C6: a fatal failure aborts the whole load at once.  First conjunct:
a hook that fails (an unreadable or undecodable file, or any source
whose coercion fails) makes `Retrieve` return that error immediately,
with every later-registered hook left un-run, whatever those hooks are,
and no populated target in the result.  Second conjunct: the file hook
propagates an open/decode failure as such a hook error.  Third
conjunct: inside the environment source, a field whose raw value fails
coercion makes the run yield the error immediately, whatever
descriptors follow, with no partial value list in the result. -/
theorem failure_aborts_load :
    (∀ (σ ε : Type) (h : σ → Except ε σ) (hs : List (σ → Except ε σ)) (s : σ) (e : ε),
      h s = .error e →
      ConfigLoader.Retrieve ⟨h :: hs, s⟩ = (.error e, ⟨hs, s⟩)) ∧
    (∀ (σ ε : Type) (e : ε) (s : σ),
      fileRun (Except.error e) s = (.error e : Except ε σ)) ∧
    (∀ (env : String → String) (d : FieldDesc) (ds : List FieldDesc) (v : GoValue)
        (vs : List GoValue) (e : GoError),
      0 < (env (formatEnvVar d.name)).length →
      setField d.ty (env (formatEnvVar d.name)) = .error e →
      applyEnv env (d :: ds) (v :: vs) = .error e) := by
  refine ⟨?_, fun σ ε e s => rfl, ?_⟩
  · intro σ ε h hs s e hfail
    unfold ConfigLoader.Retrieve
    simp only [retrieveLoop]
    rw [hfail]
  · intro env d ds v vs e h1 h2
    simp only [applyEnv]
    rw [if_pos h1, h2]

theorem failure_aborts_load_witness :
    (ConfigLoader.Retrieve ⟨[fun _ => Except.error GoError.ioError], "t"⟩ =
      ((Except.error GoError.ioError : Except GoError String),
        (⟨[], "t"⟩ : ConfigLoader String GoError))) ∧
    fileRun (Except.error GoError.ioError) "t" =
      (Except.error GoError.ioError : Except GoError String) ∧
    applyEnv (fun _ => "oops") [⟨"B", ⟨"bool", GoKind.bool⟩⟩] [GoValue.vBool false] =
      .error GoError.parse :=
  ⟨failure_aborts_load.1 String GoError (fun _ => Except.error GoError.ioError) [] "t"
      GoError.ioError rfl,
    failure_aborts_load.2.1 String GoError GoError.ioError "t",
    failure_aborts_load.2.2 (fun _ => "oops") ⟨"B", ⟨"bool", GoKind.bool⟩⟩ [] (GoValue.vBool false)
      [] GoError.parse (by decide) (by decide)⟩

end Configloader
